import Mathlib

/-!
Verification of the LP-hedging-strategy PnL reconstruction engine.

The Meteora event-sourced cost-basis reconstructor
(`lp-monitor/src/services/pnlCalculationService.ts`) is embedded over ℚ
(JavaScript numbers modelled as exact rationals, division by zero as 0).
The Krystal concentrated-liquidity math (`compute_L` /
`solve_v3_withdrawals`, whose Python source is absent from the repository
snapshot and is modelled from its algorithm document
`python/krystal_pnl/krystal-pnl-algo.md` and the specification) is embedded
over ℝ.
-/

/-- Raw event record as returned by the Meteora DLMM API, before the
fetch helpers tag it with an event type.  Scalar JS numbers are modelled
as rationals; `onchain_timestamp` likewise. -/
structure RawPnlEvent where
  token_x_amount : ℚ
  token_y_amount : ℚ
  token_x_usd_amount : ℚ
  token_y_usd_amount : ℚ
  onchain_timestamp : ℚ
deriving DecidableEq, Repr

/-- The tag attached by `fetchDeposits` / `fetchWithdrawals` /
`fetchFeeClaims` (`event_type` field of `PnlEvent`). -/
inductive EventType where
  | deposit
  | withdrawal
  | claimFees
deriving DecidableEq, Repr

/-- A tagged event, as consumed by the fold in
`calculateMeteoraPositionPNLUsd`. -/
structure PnlEvent extends RawPnlEvent where
  event_type : EventType
deriving DecidableEq, Repr

/-- `fetch…` helpers: tag every raw event of a list with one event type. -/
def tagEvents (t : EventType) (l : List RawPnlEvent) : List PnlEvent :=
  l.map fun e => { e with event_type := t }

/-- `eventUsdValue` helper: total USD value of an event. -/
def eventUsdValue (evt : PnlEvent) : ℚ :=
  evt.token_x_usd_amount + evt.token_y_usd_amount

/-- `Math.pow(10, decimals)` as a rational. -/
def pow10 (d : ℕ) : ℚ := 10 ^ d

/-- The mutable accumulator of the event fold (one per position). -/
structure FoldState where
  cumulativeClaimedX : ℚ
  cumulativeClaimedY : ℚ
  availableClaimedX : ℚ
  availableClaimedY : ℚ
  capitalDeposits : ℚ
  totalDeposit : ℚ
  totalFeeReward : ℚ
  totalWithdrawal : ℚ
deriving DecidableEq, Repr

/-- All accumulators start at zero. -/
def initState : FoldState :=
  { cumulativeClaimedX := 0, cumulativeClaimedY := 0
    availableClaimedX := 0, availableClaimedY := 0
    capitalDeposits := 0, totalDeposit := 0
    totalFeeReward := 0, totalWithdrawal := 0 }

/-- Reinvestment ratio of one token at a Deposit event:
`min(availableAdjusted / depositAdjusted, 1)` when the decimal-adjusted
deposit quantity is positive, else 0. -/
def reinvestedRatio (available deposit : ℚ) : ℚ :=
  if 0 < deposit then min (available / deposit) 1 else 0

/-- USD capital portion of a Deposit event processed in state `s`
(the `capitalXUsd + capitalYUsd` cost basis of the source). -/
def depositCapitalUsd (dX dY : ℕ) (s : FoldState) (evt : PnlEvent) : ℚ :=
  let reinvestedRatioX :=
    reinvestedRatio (s.availableClaimedX / pow10 dX) (evt.token_x_amount / pow10 dX)
  let reinvestedRatioY :=
    reinvestedRatio (s.availableClaimedY / pow10 dY) (evt.token_y_amount / pow10 dY)
  evt.token_x_usd_amount * (1 - reinvestedRatioX) +
    evt.token_y_usd_amount * (1 - reinvestedRatioY)

/-- One iteration of the event loop of `calculateMeteoraPositionPNLUsd`
(lines 115–153 of `pnlCalculationService.ts`).  Note that on a
`Claim Fees` event the source executes `availableClaimedX = cumulativeClaimedX`
after incrementing the cumulative totals: the available totals are reset
to the cumulative totals, not incremented. -/
def stepUsd (dX dY : ℕ) (s : FoldState) (evt : PnlEvent) : FoldState :=
  match evt.event_type with
  | .claimFees =>
      { s with
        cumulativeClaimedX := s.cumulativeClaimedX + evt.token_x_amount
        cumulativeClaimedY := s.cumulativeClaimedY + evt.token_y_amount
        availableClaimedX := s.cumulativeClaimedX + evt.token_x_amount
        availableClaimedY := s.cumulativeClaimedY + evt.token_y_amount
        totalFeeReward := s.totalFeeReward + eventUsdValue evt }
  | .deposit =>
      let reinvestedRatioX :=
        reinvestedRatio (s.availableClaimedX / pow10 dX) (evt.token_x_amount / pow10 dX)
      let reinvestedRatioY :=
        reinvestedRatio (s.availableClaimedY / pow10 dY) (evt.token_y_amount / pow10 dY)
      { s with
        capitalDeposits := s.capitalDeposits + depositCapitalUsd dX dY s evt
        totalDeposit := s.totalDeposit + eventUsdValue evt
        availableClaimedX :=
          max 0 (s.availableClaimedX - evt.token_x_amount * reinvestedRatioX)
        availableClaimedY :=
          max 0 (s.availableClaimedY - evt.token_y_amount * reinvestedRatioY) }
  | .withdrawal =>
      { s with totalWithdrawal := s.totalWithdrawal + eventUsdValue evt }

/-- JS comparator `(a, b) => a.onchain_timestamp - b.onchain_timestamp`
as the total preorder used by the (stable) sort. -/
def tsLE (a b : PnlEvent) : Prop :=
  a.onchain_timestamp ≤ b.onchain_timestamp

instance : DecidableRel tsLE := fun a b =>
  inferInstanceAs (Decidable (a.onchain_timestamp ≤ b.onchain_timestamp))

instance : IsTotal PnlEvent tsLE := ⟨fun _ _ => le_total _ _⟩

instance : IsTrans PnlEvent tsLE := ⟨fun _ _ _ => le_trans⟩

/-- `Array.prototype.sort` is stable (ES2019); a stable sort by the
timestamp comparator is modelled by stable insertion sort. -/
def sortEvents (l : List PnlEvent) : List PnlEvent :=
  l.insertionSort tsLE

/-- Tag and combine the three fetched event lists, then sort by
timestamp — the `allEvents` list of the source. -/
def combineEvents (deposits withdrawals feeClaims : List RawPnlEvent) :
    List PnlEvent :=
  sortEvents
    (tagEvents .deposit deposits ++ tagEvents .withdrawal withdrawals ++
      tagEvents .claimFees feeClaims)

/-- `reinvestedFeesUsd = totalDepositUsd - capitalDepositsUsd`. -/
def reinvestedFees (s : FoldState) : ℚ := s.totalDeposit - s.capitalDeposits

/-- `totalInflowsUsd = capitalDepositsUsd + totalFeeRewardUsd + reinvestedFeesUsd`. -/
def totalInflows (s : FoldState) : ℚ :=
  s.capitalDeposits + s.totalFeeReward + reinvestedFees s

/-- `withdrawalRatio = totalInflows > 0 ? min(totalWithdrawal / totalInflows, 1) : 0`. -/
def withdrawalRatio (s : FoldState) : ℚ :=
  if 0 < totalInflows s then min (s.totalWithdrawal / totalInflows s) 1 else 0

/-- Return record of `calculateMeteoraPositionPNLUsd`. -/
structure PnlResultUsd where
  realizedPNLUsd : ℚ
  unrealizedPNLUsd : ℚ
  netPNLUsd : ℚ
  capitalDepositsUsd : ℚ
  reinvestedFeesUsd : ℚ
  totalFeeRewardUsd : ℚ
deriving DecidableEq, Repr

/-- The accumulator state after the event loop of
`calculateMeteoraPositionPNLUsd`. -/
def usdFoldState (dX dY : ℕ)
    (deposits withdrawals feeClaims : List RawPnlEvent) : FoldState :=
  (combineEvents deposits withdrawals feeClaims).foldl (stepUsd dX dY) initState

/-- `calculateMeteoraPositionPNLUsd`: fold the sorted events, fail when
no deposit value was accumulated, otherwise compute the PnL fields.
Event fetching and token-decimal lookup are collaborators; the decimals
and the three event lists are taken as arguments. -/
def calculateMeteoraPositionPNLUsd (dX dY : ℕ) (currentPositionValueUsd : ℚ)
    (deposits withdrawals feeClaims : List RawPnlEvent) :
    Except String PnlResultUsd :=
  let s := usdFoldState dX dY deposits withdrawals feeClaims
  if s.totalDeposit = 0 then
    .error "No deposits found for position"
  else
    let wr := withdrawalRatio s
    let withdrawnCapitalUsd := s.capitalDeposits * wr
    let realizedPNLUsd := s.totalWithdrawal - withdrawnCapitalUsd
    let remainingCapitalUsd := s.capitalDeposits - withdrawnCapitalUsd
    .ok
      { realizedPNLUsd := realizedPNLUsd
        unrealizedPNLUsd := currentPositionValueUsd - remainingCapitalUsd
        netPNLUsd :=
          (currentPositionValueUsd + s.totalWithdrawal) - s.capitalDeposits
        capitalDepositsUsd := s.capitalDeposits
        reinvestedFeesUsd := reinvestedFees s
        totalFeeRewardUsd := s.totalFeeReward }

/-- `convertEventToTokenB` of the Token-B variant: value the event in
token-B units, at the price implied by `token_y_usd_amount` over the
decimal-adjusted token-Y amount, falling back to the current token-B
price when the event carries no token-Y amount. -/
def convertEventToTokenB (dY : ℕ) (currentTokenBPriceUsd : ℚ)
    (evt : PnlEvent) : ℚ :=
  if evt.token_y_amount = 0 then
    eventUsdValue evt / currentTokenBPriceUsd
  else
    let actualTokenYQuantity := evt.token_y_amount / pow10 dY
    let tokenBPriceAtEvent := evt.token_y_usd_amount / actualTokenYQuantity
    eventUsdValue evt / tokenBPriceAtEvent

/-- One iteration of the event loop of `calculateMeteoraPositionPNLTokenB`
(lines 235–272 of `pnlCalculationService.ts`).  The claimed-token
bookkeeping is identical to the USD fold; the three USD accumulators
take the token-B event value instead, except the capital cost basis,
which is the USD cost basis divided by the *current* token-B price. -/
def stepTokenB (dX dY : ℕ) (currentTokenBPriceUsd : ℚ) (s : FoldState)
    (evt : PnlEvent) : FoldState :=
  let eventValueTokenB := convertEventToTokenB dY currentTokenBPriceUsd evt
  match evt.event_type with
  | .claimFees =>
      { s with
        cumulativeClaimedX := s.cumulativeClaimedX + evt.token_x_amount
        cumulativeClaimedY := s.cumulativeClaimedY + evt.token_y_amount
        availableClaimedX := s.cumulativeClaimedX + evt.token_x_amount
        availableClaimedY := s.cumulativeClaimedY + evt.token_y_amount
        totalFeeReward := s.totalFeeReward + eventValueTokenB }
  | .deposit =>
      let reinvestedRatioX :=
        reinvestedRatio (s.availableClaimedX / pow10 dX) (evt.token_x_amount / pow10 dX)
      let reinvestedRatioY :=
        reinvestedRatio (s.availableClaimedY / pow10 dY) (evt.token_y_amount / pow10 dY)
      { s with
        capitalDeposits :=
          s.capitalDeposits + depositCapitalUsd dX dY s evt / currentTokenBPriceUsd
        totalDeposit := s.totalDeposit + eventValueTokenB
        availableClaimedX :=
          max 0 (s.availableClaimedX - evt.token_x_amount * reinvestedRatioX)
        availableClaimedY :=
          max 0 (s.availableClaimedY - evt.token_y_amount * reinvestedRatioY) }
  | .withdrawal =>
      { s with totalWithdrawal := s.totalWithdrawal + eventValueTokenB }

/-- Return record of `calculateMeteoraPositionPNLTokenB`. -/
structure PnlResultTokenB where
  realizedPNLTokenB : ℚ
  unrealizedPNLTokenB : ℚ
  netPNLTokenB : ℚ
  capitalDepositsTokenB : ℚ
  reinvestedFeesTokenB : ℚ
deriving DecidableEq, Repr

/-- The accumulator state after the event loop of
`calculateMeteoraPositionPNLTokenB`. -/
def tokenBFoldState (dX dY : ℕ) (currentTokenBPriceUsd : ℚ)
    (deposits withdrawals feeClaims : List RawPnlEvent) : FoldState :=
  (combineEvents deposits withdrawals feeClaims).foldl
    (stepTokenB dX dY currentTokenBPriceUsd) initState

/-- `calculateMeteoraPositionPNLTokenB`: the token-B-denominated variant. -/
def calculateMeteoraPositionPNLTokenB (dX dY : ℕ)
    (currentPositionValueUsd currentTokenBPriceUsd : ℚ)
    (deposits withdrawals feeClaims : List RawPnlEvent) :
    Except String PnlResultTokenB :=
  let s := tokenBFoldState dX dY currentTokenBPriceUsd deposits withdrawals feeClaims
  if s.totalDeposit = 0 then
    .error "No deposits found for position"
  else
    let wr := withdrawalRatio s
    let withdrawnCapitalTokenB := s.capitalDeposits * wr
    let currentPositionValueTokenB :=
      currentPositionValueUsd / currentTokenBPriceUsd
    let remainingCapitalTokenB := s.capitalDeposits - withdrawnCapitalTokenB
    .ok
      { realizedPNLTokenB := s.totalWithdrawal - withdrawnCapitalTokenB
        unrealizedPNLTokenB := currentPositionValueTokenB - remainingCapitalTokenB
        netPNLTokenB :=
          (currentPositionValueTokenB + s.totalWithdrawal) - s.capitalDeposits
        capitalDepositsTokenB := s.capitalDeposits
        reinvestedFeesTokenB := reinvestedFees s }

/-- The token-B price a given event is valued at by
`convertEventToTokenB`: the price implied by `token_y_usd_amount` over
the decimal-adjusted token-Y amount, or the current token-B price when
the event has no token-Y amount. -/
def impliedTokenBPrice (dY : ℕ) (currentTokenBPriceUsd : ℚ)
    (evt : PnlEvent) : ℚ :=
  if evt.token_y_amount = 0 then currentTokenBPriceUsd
  else evt.token_y_usd_amount / (evt.token_y_amount / pow10 dY)

/-- The re-valuation of an event into token-B units described by the
specification: both USD components are divided by the event's implied
token-B price, so the event's total value becomes
`eventUsdValue evt / impliedTokenBPrice`. -/
def revalueToTokenB (dY : ℕ) (currentTokenBPriceUsd : ℚ)
    (evt : PnlEvent) : PnlEvent :=
  { evt with
    token_x_usd_amount :=
      evt.token_x_usd_amount / impliedTokenBPrice dY currentTokenBPriceUsd evt
    token_y_usd_amount :=
      evt.token_y_usd_amount / impliedTokenBPrice dY currentTokenBPriceUsd evt }

/-- An event whose raw token amounts are nonnegative. -/
def nonnegAmounts (e : PnlEvent) : Prop :=
  0 ≤ e.token_x_amount ∧ 0 ≤ e.token_y_amount

/-- An event whose raw token amounts and USD values are all nonnegative. -/
def nonnegEvent (e : PnlEvent) : Prop :=
  nonnegAmounts e ∧ 0 ≤ e.token_x_usd_amount ∧ 0 ≤ e.token_y_usd_amount

/-- Claimed-token bookkeeping invariant of the fold state: each
available-claimed balance is between zero and its cumulative total. -/
def AvailInv (s : FoldState) : Prop :=
  0 ≤ s.availableClaimedX ∧ s.availableClaimedX ≤ s.cumulativeClaimedX ∧
    0 ≤ s.availableClaimedY ∧ s.availableClaimedY ≤ s.cumulativeClaimedY

/-- Nonnegativity of the USD accumulators of the fold state. -/
def MoneyInv (s : FoldState) : Prop :=
  0 ≤ s.capitalDeposits ∧ 0 ≤ s.totalDeposit ∧
    0 ≤ s.totalFeeReward ∧ 0 ≤ s.totalWithdrawal

/-- Input of `processPnlForPositions` (`pnlResultsService.ts`): one
tracked position, together with the event lists its PnL computations
fetch and the token decimals their metadata lookup returns. -/
structure Position where
  id : String
  owner : String
  pool : String
  tokenXSymbol : String
  tokenYSymbol : String
  amountX : ℚ
  amountY : ℚ
  tokenXPriceUsd : ℚ
  tokenYPriceUsd : ℚ
  tokenXDecimals : ℕ
  tokenYDecimals : ℕ
  deposits : List RawPnlEvent
  withdrawals : List RawPnlEvent
  feeClaims : List RawPnlEvent

/-- One row of the `PnlResult` list built by `processPnlForPositions`
(the run timestamp column is plumbing and omitted). -/
structure PnlResultRow where
  positionId : String
  owner : String
  pool : String
  tokenXSymbol : String
  tokenYSymbol : String
  realizedPNLUsd : ℚ
  unrealizedPNLUsd : ℚ
  netPNLUsd : ℚ
  realizedPNLTokenB : ℚ
  unrealizedPNLTokenB : ℚ
  netPNLTokenB : ℚ

/-- `currentPositionValueUsd = amountX * tokenXPriceUsd + amountY * tokenYPriceUsd`. -/
def positionValueUsd (pos : Position) : ℚ :=
  pos.amountX * pos.tokenXPriceUsd + pos.amountY * pos.tokenYPriceUsd

/-- The `try` block body of `processPnlForPositions` for one position:
the row is produced only when both PnL computations succeed; any error
makes the block yield nothing. -/
def processPosition (pos : Position) : Option PnlResultRow :=
  match
    calculateMeteoraPositionPNLUsd pos.tokenXDecimals pos.tokenYDecimals
      (positionValueUsd pos) pos.deposits pos.withdrawals pos.feeClaims,
    calculateMeteoraPositionPNLTokenB pos.tokenXDecimals pos.tokenYDecimals
      (positionValueUsd pos) pos.tokenYPriceUsd pos.deposits pos.withdrawals
      pos.feeClaims
  with
  | .ok u, .ok b =>
      some
        { positionId := pos.id, owner := pos.owner, pool := pos.pool
          tokenXSymbol := pos.tokenXSymbol, tokenYSymbol := pos.tokenYSymbol
          realizedPNLUsd := u.realizedPNLUsd
          unrealizedPNLUsd := u.unrealizedPNLUsd
          netPNLUsd := u.netPNLUsd
          realizedPNLTokenB := b.realizedPNLTokenB
          unrealizedPNLTokenB := b.unrealizedPNLTokenB
          netPNLTokenB := b.netPNLTokenB }
  | _, _ => none

/-- `processPnlForPositions`: loop over the positions, appending a row
for a position when its computations succeed and skipping it (catch
branch: log only) otherwise. -/
def processPnlForPositions (positions : List Position) : List PnlResultRow :=
  positions.foldl
    (fun results pos =>
      match processPosition pos with
      | some r => results ++ [r]
      | none => results)
    []

noncomputable section KrystalMath

/-- The positive solution of `A·L² + B·L + C = 0` by the quadratic
formula (the root `(−B + √disc)/(2A)` when it is positive, else the
other root), with the linear fallback `−C/B` in the degenerate case
`A = 0`. -/
def posRoot (A B C : ℝ) : ℝ :=
  if A = 0 then -C / B
  else
    let disc := B ^ 2 - 4 * A * C
    let r1 := (-B + Real.sqrt disc) / (2 * A)
    let r2 := (-B - Real.sqrt disc) / (2 * A)
    if 0 < r1 then r1 else r2

/-- Modelled from the spec: the Python module
`krystal_compute_pnl_open_only.py` is absent from the repository
snapshot; `compute_L` is modelled from its algorithm document
`python/krystal_pnl/krystal-pnl-algo.md` §2 together with spec §4.1.
With `alpha = sqrt(p_min)` and `beta = 1 / sqrt(p_max)`, it solves
`A·L² + B·L + C = 0` where `A = alpha·beta − 1`, `B = x0·alpha + y0·beta`,
`C = x0·y0`, returning the positive root. -/
def compute_L (x0 y0 pMin pMax : ℝ) : ℝ :=
  posRoot (Real.sqrt pMin * (1 / Real.sqrt pMax) - 1)
    (x0 * Real.sqrt pMin + y0 * (1 / Real.sqrt pMax)) (x0 * y0)

/-- Modelled from the spec: `solve_v3_withdrawals` (absent Python module;
algorithm document §2 and spec §4.1 `decomposeWithdrawal`).  Outside the
range the position is single-asset; inside the range, the liquidity-`L`
position holds `x = L(1/√p − 1/√pMax)` of token A and
`y = L(√p − √pMin)` of token B, and a withdrawal of USD value `W` takes
the share `W / (x·Pa + y·Pb)` of both quantities. -/
def solve_v3_withdrawals (W Pa Pb p L pMin pMax : ℝ) : ℝ × ℝ :=
  if p ≤ pMin then (W / Pa, 0)
  else if pMax ≤ p then (0, W / Pb)
  else
    let x := L * (1 / Real.sqrt p - 1 / Real.sqrt pMax)
    let y := L * (Real.sqrt p - Real.sqrt pMin)
    let V := x * Pa + y * Pb
    (W / V * x, W / V * y)

/-- USD value of the full liquidity-`L` position at price `p`, with
token prices `Pa`, `Pb`. -/
def fullPositionValue (Pa Pb p L pMin pMax : ℝ) : ℝ :=
  L * (1 / Real.sqrt p - 1 / Real.sqrt pMax) * Pa +
    L * (Real.sqrt p - Real.sqrt pMin) * Pb

end KrystalMath

/-! ## Helper lemmas -/

theorem pow10_pos (d : ℕ) : 0 < pow10 d := by
  unfold pow10; positivity

theorem reinvestedRatio_nonneg {available : ℚ} (deposit : ℚ)
    (h : 0 ≤ available) : 0 ≤ reinvestedRatio available deposit := by
  unfold reinvestedRatio
  split_ifs with hd
  · exact le_min (div_nonneg h hd.le) zero_le_one
  · exact le_refl 0

theorem reinvestedRatio_le_one (available deposit : ℚ) :
    reinvestedRatio available deposit ≤ 1 := by
  unfold reinvestedRatio
  split_ifs
  · exact min_le_right _ _
  · exact zero_le_one

theorem reinvestedRatio_of_nonpos (available : ℚ) {deposit : ℚ}
    (h : deposit ≤ 0) : reinvestedRatio available deposit = 0 :=
  if_neg (not_lt.mpr h)

theorem depositCapitalUsd_nonneg (dX dY : ℕ) (s : FoldState) {evt : PnlEvent}
    (hx : 0 ≤ evt.token_x_usd_amount) (hy : 0 ≤ evt.token_y_usd_amount) :
    0 ≤ depositCapitalUsd dX dY s evt := by
  unfold depositCapitalUsd
  have h1 := reinvestedRatio_le_one (s.availableClaimedX / pow10 dX)
    (evt.token_x_amount / pow10 dX)
  have h2 := reinvestedRatio_le_one (s.availableClaimedY / pow10 dY)
    (evt.token_y_amount / pow10 dY)
  have := mul_nonneg hx (by linarith : (0:ℚ) ≤ 1 - reinvestedRatio
    (s.availableClaimedX / pow10 dX) (evt.token_x_amount / pow10 dX))
  have := mul_nonneg hy (by linarith : (0:ℚ) ≤ 1 - reinvestedRatio
    (s.availableClaimedY / pow10 dY) (evt.token_y_amount / pow10 dY))
  linarith

theorem stepUsd_availInv {dX dY : ℕ} {s : FoldState} {evt : PnlEvent}
    (hs : AvailInv s) (he : nonnegAmounts evt) :
    AvailInv (stepUsd dX dY s evt) := by
  obtain ⟨hx0, hx1, hy0, hy1⟩ := hs
  obtain ⟨hex, hey⟩ := he
  cases htype : evt.event_type with
  | claimFees =>
      simp only [stepUsd, htype, AvailInv]
      refine ⟨by linarith, le_refl _, by linarith, le_refl _⟩
  | deposit =>
      have hrx : 0 ≤ evt.token_x_amount *
          reinvestedRatio (s.availableClaimedX / pow10 dX)
            (evt.token_x_amount / pow10 dX) :=
        mul_nonneg hex
          (reinvestedRatio_nonneg _ (div_nonneg hx0 (pow10_pos dX).le))
      have hry : 0 ≤ evt.token_y_amount *
          reinvestedRatio (s.availableClaimedY / pow10 dY)
            (evt.token_y_amount / pow10 dY) :=
        mul_nonneg hey
          (reinvestedRatio_nonneg _ (div_nonneg hy0 (pow10_pos dY).le))
      simp only [stepUsd, htype, AvailInv]
      refine ⟨le_max_left _ _, max_le (by linarith) (by linarith),
        le_max_left _ _, max_le (by linarith) (by linarith)⟩
  | withdrawal =>
      simp only [stepUsd, htype, AvailInv]
      exact ⟨hx0, hx1, hy0, hy1⟩

theorem stepUsd_moneyInv {dX dY : ℕ} {s : FoldState} {evt : PnlEvent}
    (hs : MoneyInv s) (he : nonnegEvent evt) :
    MoneyInv (stepUsd dX dY s evt) := by
  obtain ⟨hc, hd, hf, hw⟩ := hs
  obtain ⟨-, hxu, hyu⟩ := he
  cases htype : evt.event_type with
  | claimFees =>
      simp only [stepUsd, htype, MoneyInv, eventUsdValue]
      refine ⟨hc, hd, by linarith, hw⟩
  | deposit =>
      have := depositCapitalUsd_nonneg dX dY s hxu hyu
      simp only [stepUsd, htype, MoneyInv, eventUsdValue]
      refine ⟨by linarith, by linarith, hf, hw⟩
  | withdrawal =>
      simp only [stepUsd, htype, MoneyInv, eventUsdValue]
      refine ⟨hc, hd, hf, by linarith⟩

theorem foldl_stepUsd_availInv (dX dY : ℕ) (events : List PnlEvent)
    (s : FoldState) (hs : AvailInv s) (h : ∀ e ∈ events, nonnegAmounts e) :
    AvailInv (events.foldl (stepUsd dX dY) s) := by
  induction events generalizing s with
  | nil => exact hs
  | cons e es ih =>
      exact ih _ (stepUsd_availInv hs (h e (List.mem_cons_self e es)))
        fun x hx => h x (List.mem_cons_of_mem e hx)

theorem foldl_stepUsd_moneyInv (dX dY : ℕ) (events : List PnlEvent)
    (s : FoldState) (hs : MoneyInv s) (h : ∀ e ∈ events, nonnegEvent e) :
    MoneyInv (events.foldl (stepUsd dX dY) s) := by
  induction events generalizing s with
  | nil => exact hs
  | cons e es ih =>
      exact ih _ (stepUsd_moneyInv hs (h e (List.mem_cons_self e es)))
        fun x hx => h x (List.mem_cons_of_mem e hx)

theorem initState_availInv : AvailInv initState := by
  refine ⟨le_refl 0, le_refl 0, le_refl 0, le_refl 0⟩

theorem initState_moneyInv : MoneyInv initState := by
  refine ⟨le_refl 0, le_refl 0, le_refl 0, le_refl 0⟩

/-! ## Claims -/

/-- C4: for every event sequence folded by `calculateMeteoraPositionPNLUsd`,
the post-fold quantities satisfy
`capitalDeposits + totalFeeReward + reinvestedFees = totalInflows` exactly,
where `reinvestedFees = totalDeposit - capitalDeposits`; equivalently
`totalInflows = totalDeposit + totalFeeReward`. -/
theorem C4_conservation (dX dY : ℕ)
    (deposits withdrawals feeClaims : List RawPnlEvent) :
    reinvestedFees (usdFoldState dX dY deposits withdrawals feeClaims) =
      (usdFoldState dX dY deposits withdrawals feeClaims).totalDeposit -
        (usdFoldState dX dY deposits withdrawals feeClaims).capitalDeposits ∧
    (usdFoldState dX dY deposits withdrawals feeClaims).capitalDeposits +
        (usdFoldState dX dY deposits withdrawals feeClaims).totalFeeReward +
        reinvestedFees (usdFoldState dX dY deposits withdrawals feeClaims) =
      totalInflows (usdFoldState dX dY deposits withdrawals feeClaims) ∧
    totalInflows (usdFoldState dX dY deposits withdrawals feeClaims) =
      (usdFoldState dX dY deposits withdrawals feeClaims).totalDeposit +
        (usdFoldState dX dY deposits withdrawals feeClaims).totalFeeReward := by
  refine ⟨rfl, rfl, ?_⟩
  unfold totalInflows reinvestedFees
  ring

/-- C6: `calculateMeteoraPositionPNLUsd` and the Token-B variant fail
(and produce no result) exactly when the accumulated total deposit value
of the folded event stream is zero. -/
theorem C6_no_deposits_error (dX dY : ℕ) (cur price : ℚ)
    (deposits withdrawals feeClaims : List RawPnlEvent) :
    ((calculateMeteoraPositionPNLUsd dX dY cur deposits withdrawals
          feeClaims).isOk = false ↔
        (usdFoldState dX dY deposits withdrawals feeClaims).totalDeposit = 0) ∧
    ((calculateMeteoraPositionPNLTokenB dX dY cur price deposits withdrawals
          feeClaims).isOk = false ↔
        (tokenBFoldState dX dY price deposits withdrawals
            feeClaims).totalDeposit = 0) := by
  constructor
  · simp only [calculateMeteoraPositionPNLUsd]
    split_ifs with h <;> simp [Except.isOk, Except.toBool, h]
  · simp only [calculateMeteoraPositionPNLTokenB]
    split_ifs with h <;> simp [Except.isOk, Except.toBool, h]

/-- C3: whenever `calculateMeteoraPositionPNLUsd` returns a result, its
fields satisfy exactly the withdrawal-ratio / realized / unrealized /
net equations of the source, and consequently
`netPNL = realizedPNL + unrealizedPNL`. -/
theorem C3_result_equations (dX dY : ℕ) (cur : ℚ)
    (deposits withdrawals feeClaims : List RawPnlEvent) (r : PnlResultUsd)
    (h : calculateMeteoraPositionPNLUsd dX dY cur deposits withdrawals
        feeClaims = .ok r) :
    let s := usdFoldState dX dY deposits withdrawals feeClaims
    withdrawalRatio s =
        (if 0 < totalInflows s
          then min (s.totalWithdrawal / totalInflows s) 1 else 0) ∧
    r.realizedPNLUsd =
        s.totalWithdrawal - s.capitalDeposits * withdrawalRatio s ∧
    r.unrealizedPNLUsd =
        cur - (s.capitalDeposits - s.capitalDeposits * withdrawalRatio s) ∧
    r.netPNLUsd = (cur + s.totalWithdrawal) - s.capitalDeposits ∧
    r.netPNLUsd = r.realizedPNLUsd + r.unrealizedPNLUsd := by
  intro s
  simp only [calculateMeteoraPositionPNLUsd] at h
  split_ifs at h with h0
  injection h with h
  subst h
  refine ⟨rfl, rfl, rfl, rfl, ?_⟩
  dsimp only
  ring

/-- Witness for C3 at a concrete one-deposit stream. -/
theorem C3_result_equations_witness :
    (calculateMeteoraPositionPNLUsd 0 0 0 [⟨0, 0, 100, 0, 0⟩] [] [] =
      .ok ⟨0, -100, -100, 100, 0, 0⟩) ∧
    (let s := usdFoldState 0 0 [⟨0, 0, 100, 0, 0⟩] [] []
     withdrawalRatio s =
        (if 0 < totalInflows s
          then min (s.totalWithdrawal / totalInflows s) 1 else 0) ∧
     (0 : ℚ) = s.totalWithdrawal - s.capitalDeposits * withdrawalRatio s ∧
     (-100 : ℚ) =
        0 - (s.capitalDeposits - s.capitalDeposits * withdrawalRatio s) ∧
     (-100 : ℚ) = (0 + s.totalWithdrawal) - s.capitalDeposits ∧
     (-100 : ℚ) = 0 + -100) := by
  have hc : calculateMeteoraPositionPNLUsd 0 0 0 [⟨0, 0, 100, 0, 0⟩] [] [] =
      .ok ⟨0, -100, -100, 100, 0, 0⟩ := by
    norm_num [calculateMeteoraPositionPNLUsd, usdFoldState, combineEvents,
      sortEvents, tagEvents, tsLE, initState, stepUsd, eventUsdValue,
      depositCapitalUsd, reinvestedRatio, pow10, withdrawalRatio,
      totalInflows, reinvestedFees]
  exact ⟨hc, C3_result_equations 0 0 0 [⟨0, 0, 100, 0, 0⟩] [] [] _ hc⟩

/-- C1: evaluation of the fold at a concrete event stream
(FeeClaim of 10 X, Deposit of 10 X fully reinvested, FeeClaim of 5 X,
token decimals 0).  Before the second FeeClaim the available-claimed X
balance is 0 (the deposit consumed it); the claim says the FeeClaim adds
its claimed amount, giving 0 + 5 = 5, but the fold resets the balance to
the cumulative total and yields 15. -/
theorem C1_feeclaim_overwrites_available :
    (([⟨⟨10, 0, 1, 0, 0⟩, .claimFees⟩, ⟨⟨10, 0, 10, 0, 1⟩, .deposit⟩] :
          List PnlEvent).foldl (stepUsd 0 0) initState).availableClaimedX
        = 0 ∧
    (stepUsd 0 0
          (([⟨⟨10, 0, 1, 0, 0⟩, .claimFees⟩, ⟨⟨10, 0, 10, 0, 1⟩, .deposit⟩] :
              List PnlEvent).foldl (stepUsd 0 0) initState)
          ⟨⟨5, 0, 1, 0, 2⟩, .claimFees⟩).availableClaimedX = 15 ∧
    (0 : ℚ) + 5 ≠ 15 := by
  norm_num [stepUsd, initState, eventUsdValue, reinvestedRatio,
    depositCapitalUsd, pow10]

/-- C2 counterexample: a single deposit of 100 token Y valued 200 USD
(implied token-B price 2) with current token-B price 1.
`calculateMeteoraPositionPNLTokenB` reports `capitalDepositsTokenB = 200`
(USD cost basis divided by the *current* price), whereas the USD fold
applied to the re-valued event — the computation the claim describes —
yields capital of 100 (denominated at the event's implied price). -/
theorem C2_counterexample :
    (tagEvents .deposit [⟨0, 100, 0, 200, 0⟩]).map (revalueToTokenB 0 1) =
        tagEvents .deposit [⟨0, 100, 0, 100, 0⟩] ∧
    calculateMeteoraPositionPNLTokenB 0 0 0 1 [⟨0, 100, 0, 200, 0⟩] [] [] =
        .ok ⟨0, -200, -200, 200, -100⟩ ∧
    calculateMeteoraPositionPNLUsd 0 0 0 [⟨0, 100, 0, 100, 0⟩] [] [] =
        .ok ⟨0, -100, -100, 100, 0, 0⟩ ∧
    (200 : ℚ) ≠ 100 := by
  refine ⟨?_, ?_, ?_, by norm_num⟩
  · norm_num [tagEvents, revalueToTokenB, impliedTokenBPrice, pow10]
  · norm_num [calculateMeteoraPositionPNLTokenB, tokenBFoldState,
      combineEvents, sortEvents, tagEvents, tsLE, initState, stepTokenB,
      convertEventToTokenB, eventUsdValue, depositCapitalUsd,
      reinvestedRatio, pow10, withdrawalRatio, totalInflows, reinvestedFees]
  · norm_num [calculateMeteoraPositionPNLUsd, usdFoldState, combineEvents,
      sortEvents, tagEvents, tsLE, initState, stepUsd, eventUsdValue,
      depositCapitalUsd, reinvestedRatio, pow10, withdrawalRatio,
      totalInflows, reinvestedFees]

/-- C2 amended: one step of the Token-B fold agrees with one step of the
USD fold on the re-valued event in every accumulator except
`capitalDeposits`: the claimed-token bookkeeping and the total-deposit,
fee-reward and withdrawal accumulators take the event value at the
event's implied token-B price, while the capital cost basis of a Deposit
event is the USD cost basis divided by the *current* token-B price. -/
theorem C2_amended (dX dY : ℕ) (price : ℚ) (s : FoldState) (evt : PnlEvent) :
    (stepTokenB dX dY price s evt).cumulativeClaimedX =
        (stepUsd dX dY s (revalueToTokenB dY price evt)).cumulativeClaimedX ∧
    (stepTokenB dX dY price s evt).cumulativeClaimedY =
        (stepUsd dX dY s (revalueToTokenB dY price evt)).cumulativeClaimedY ∧
    (stepTokenB dX dY price s evt).availableClaimedX =
        (stepUsd dX dY s (revalueToTokenB dY price evt)).availableClaimedX ∧
    (stepTokenB dX dY price s evt).availableClaimedY =
        (stepUsd dX dY s (revalueToTokenB dY price evt)).availableClaimedY ∧
    (stepTokenB dX dY price s evt).totalDeposit =
        (stepUsd dX dY s (revalueToTokenB dY price evt)).totalDeposit ∧
    (stepTokenB dX dY price s evt).totalFeeReward =
        (stepUsd dX dY s (revalueToTokenB dY price evt)).totalFeeReward ∧
    (stepTokenB dX dY price s evt).totalWithdrawal =
        (stepUsd dX dY s (revalueToTokenB dY price evt)).totalWithdrawal ∧
    (stepTokenB dX dY price s evt).capitalDeposits =
        (if evt.event_type = .deposit
          then s.capitalDeposits + depositCapitalUsd dX dY s evt / price
          else s.capitalDeposits) := by
  obtain ⟨⟨xa, ya, xu, yu, ts⟩, ty⟩ := evt
  have hval :
      convertEventToTokenB dY price ⟨⟨xa, ya, xu, yu, ts⟩, ty⟩ =
        eventUsdValue (revalueToTokenB dY price ⟨⟨xa, ya, xu, yu, ts⟩, ty⟩) := by
    simp only [convertEventToTokenB, eventUsdValue, revalueToTokenB,
      impliedTokenBPrice]
    split_ifs <;> rw [div_add_div_same]
  cases ty <;>
    simp [stepTokenB, stepUsd, hval, revalueToTokenB, depositCapitalUsd,
      eventUsdValue, impliedTokenBPrice]

/-- C10: at every step of the event fold of
`calculateMeteoraPositionPNLUsd` (token amounts nonnegative), the
cumulative-claimed totals are nondecreasing, each available-claimed
balance stays between zero and its cumulative total, a Withdrawal event
changes only the `totalWithdrawal` accumulator, and a Deposit event
never drives an available-claimed balance negative. -/
theorem C10_fold_step_invariants (dX dY : ℕ) (events : List PnlEvent)
    (h : ∀ e ∈ events, nonnegAmounts e)
    (pre : List PnlEvent) (evt : PnlEvent) (post : List PnlEvent)
    (hsplit : events = pre ++ evt :: post) :
    let s := pre.foldl (stepUsd dX dY) initState
    let t := stepUsd dX dY s evt
    s.cumulativeClaimedX ≤ t.cumulativeClaimedX ∧
    s.cumulativeClaimedY ≤ t.cumulativeClaimedY ∧
    (0 ≤ t.availableClaimedX ∧ t.availableClaimedX ≤ t.cumulativeClaimedX) ∧
    (0 ≤ t.availableClaimedY ∧ t.availableClaimedY ≤ t.cumulativeClaimedY) ∧
    (evt.event_type = .withdrawal →
      t = { s with totalWithdrawal := s.totalWithdrawal + eventUsdValue evt }) ∧
    (evt.event_type = .deposit →
      0 ≤ t.availableClaimedX ∧ 0 ≤ t.availableClaimedY) := by
  intro s t
  have hpre : ∀ e ∈ pre, nonnegAmounts e := fun e he =>
    h e (hsplit ▸ List.mem_append_left _ he)
  have hevt : nonnegAmounts evt :=
    h evt (hsplit ▸ List.mem_append_right _ (List.mem_cons_self _ _))
  have hsInv : AvailInv s :=
    foldl_stepUsd_availInv dX dY pre initState initState_availInv hpre
  have htInv : AvailInv (stepUsd dX dY s evt) := stepUsd_availInv hsInv hevt
  obtain ⟨tx0, tx1, ty0, ty1⟩ := htInv
  obtain ⟨hxa, hya⟩ := hevt
  refine ⟨?_, ?_, ⟨tx0, tx1⟩, ⟨ty0, ty1⟩, ?_, fun _ => ⟨tx0, ty0⟩⟩
  · show s.cumulativeClaimedX ≤ (stepUsd dX dY s evt).cumulativeClaimedX
    cases htype : evt.event_type <;> (simp [stepUsd, htype]; try linarith)
  · show s.cumulativeClaimedY ≤ (stepUsd dX dY s evt).cumulativeClaimedY
    cases htype : evt.event_type <;> (simp [stepUsd, htype]; try linarith)
  · intro hw
    show stepUsd dX dY s evt =
      { s with totalWithdrawal := s.totalWithdrawal + eventUsdValue evt }
    simp [stepUsd, hw]

/-- Witness for C10 at a concrete one-deposit stream. -/
theorem C10_fold_step_invariants_witness :
    (∀ e ∈ ([⟨⟨1, 2, 3, 4, 0⟩, .deposit⟩] : List PnlEvent), nonnegAmounts e) ∧
    ([⟨⟨1, 2, 3, 4, 0⟩, .deposit⟩] : List PnlEvent) =
        [] ++ (⟨⟨1, 2, 3, 4, 0⟩, .deposit⟩ : PnlEvent) :: [] ∧
    (let s := ([] : List PnlEvent).foldl (stepUsd 0 0) initState
     let t := stepUsd 0 0 s ⟨⟨1, 2, 3, 4, 0⟩, .deposit⟩
     s.cumulativeClaimedX ≤ t.cumulativeClaimedX ∧
     s.cumulativeClaimedY ≤ t.cumulativeClaimedY ∧
     (0 ≤ t.availableClaimedX ∧ t.availableClaimedX ≤ t.cumulativeClaimedX) ∧
     (0 ≤ t.availableClaimedY ∧ t.availableClaimedY ≤ t.cumulativeClaimedY) ∧
     ((⟨⟨1, 2, 3, 4, 0⟩, .deposit⟩ : PnlEvent).event_type = .withdrawal →
       t = { s with
              totalWithdrawal :=
                s.totalWithdrawal +
                  eventUsdValue ⟨⟨1, 2, 3, 4, 0⟩, .deposit⟩ }) ∧
     ((⟨⟨1, 2, 3, 4, 0⟩, .deposit⟩ : PnlEvent).event_type = .deposit →
       0 ≤ t.availableClaimedX ∧ 0 ≤ t.availableClaimedY)) := by
  have hn : ∀ e ∈ ([⟨⟨1, 2, 3, 4, 0⟩, .deposit⟩] : List PnlEvent),
      nonnegAmounts e := by
    intro e he
    simp only [List.mem_singleton] at he
    subst he
    exact ⟨by norm_num, by norm_num⟩
  exact ⟨hn, rfl,
    C10_fold_step_invariants 0 0 [⟨⟨1, 2, 3, 4, 0⟩, .deposit⟩] hn
      [] ⟨⟨1, 2, 3, 4, 0⟩, .deposit⟩ [] rfl⟩

/-- C5: with nonnegative event amounts and USD values, every
reinvestment ratio computed at a Deposit step of the fold lies in
`[0, 1]` (and is 0 for a zero deposit quantity), the withdrawal ratio
lies in `[0, 1]`, withdrawn capital never exceeds `capitalDeposits`,
remaining capital is nonnegative, and in a returning run
(`totalDeposit ≠ 0`) a withdrawal total exceeding the inflows drives the
ratio to its clamp value 1. -/
theorem C5_ratio_bounds (dX dY : ℕ) (events : List PnlEvent)
    (h : ∀ e ∈ events, nonnegEvent e) :
    (∀ pre evt post, events = pre ++ evt :: post →
      evt.event_type = .deposit →
      reinvestedRatio
          ((pre.foldl (stepUsd dX dY) initState).availableClaimedX / pow10 dX)
          (evt.token_x_amount / pow10 dX) ∈ Set.Icc (0 : ℚ) 1 ∧
      reinvestedRatio
          ((pre.foldl (stepUsd dX dY) initState).availableClaimedY / pow10 dY)
          (evt.token_y_amount / pow10 dY) ∈ Set.Icc (0 : ℚ) 1 ∧
      (evt.token_x_amount = 0 →
        reinvestedRatio
          ((pre.foldl (stepUsd dX dY) initState).availableClaimedX / pow10 dX)
          (evt.token_x_amount / pow10 dX) = 0) ∧
      (evt.token_y_amount = 0 →
        reinvestedRatio
          ((pre.foldl (stepUsd dX dY) initState).availableClaimedY / pow10 dY)
          (evt.token_y_amount / pow10 dY) = 0)) ∧
    withdrawalRatio (events.foldl (stepUsd dX dY) initState) ∈
        Set.Icc (0 : ℚ) 1 ∧
    (events.foldl (stepUsd dX dY) initState).capitalDeposits *
        withdrawalRatio (events.foldl (stepUsd dX dY) initState) ≤
      (events.foldl (stepUsd dX dY) initState).capitalDeposits ∧
    0 ≤ (events.foldl (stepUsd dX dY) initState).capitalDeposits -
      (events.foldl (stepUsd dX dY) initState).capitalDeposits *
        withdrawalRatio (events.foldl (stepUsd dX dY) initState) ∧
    ((events.foldl (stepUsd dX dY) initState).totalDeposit ≠ 0 →
      totalInflows (events.foldl (stepUsd dX dY) initState) <
          (events.foldl (stepUsd dX dY) initState).totalWithdrawal →
      withdrawalRatio (events.foldl (stepUsd dX dY) initState) = 1) := by
  have hM : MoneyInv (events.foldl (stepUsd dX dY) initState) :=
    foldl_stepUsd_moneyInv dX dY events initState initState_moneyInv h
  obtain ⟨hcap, hdep, hfee, hw⟩ := hM
  have hRatio01 :
      withdrawalRatio (events.foldl (stepUsd dX dY) initState) ∈
        Set.Icc (0 : ℚ) 1 := by
    unfold withdrawalRatio
    split_ifs with hI
    · exact ⟨le_min (div_nonneg hw hI.le) zero_le_one, min_le_right _ _⟩
    · exact ⟨le_refl 0, zero_le_one⟩
  refine ⟨?_, hRatio01, ?_, ?_, ?_⟩
  · intro pre evt post hsplit _
    have hpre : ∀ e ∈ pre, nonnegAmounts e := fun e he =>
      (h e (hsplit ▸ List.mem_append_left _ he)).1
    have hsInv : AvailInv (pre.foldl (stepUsd dX dY) initState) :=
      foldl_stepUsd_availInv dX dY pre initState initState_availInv hpre
    obtain ⟨hx0, -, hy0, -⟩ := hsInv
    refine ⟨⟨reinvestedRatio_nonneg _ (div_nonneg hx0 (pow10_pos dX).le),
        reinvestedRatio_le_one _ _⟩,
      ⟨reinvestedRatio_nonneg _ (div_nonneg hy0 (pow10_pos dY).le),
        reinvestedRatio_le_one _ _⟩, ?_, ?_⟩
    · intro hx
      rw [hx, zero_div]
      exact reinvestedRatio_of_nonpos _ (le_refl 0)
    · intro hy
      rw [hy, zero_div]
      exact reinvestedRatio_of_nonpos _ (le_refl 0)
  · exact mul_le_of_le_one_right hcap hRatio01.2
  · exact sub_nonneg.mpr (mul_le_of_le_one_right hcap hRatio01.2)
  · intro hd hlt
    have hdpos : 0 < (events.foldl (stepUsd dX dY) initState).totalDeposit :=
      lt_of_le_of_ne hdep (Ne.symm hd)
    have hIpos : 0 < totalInflows (events.foldl (stepUsd dX dY) initState) := by
      unfold totalInflows reinvestedFees
      linarith
    unfold withdrawalRatio
    rw [if_pos hIpos]
    exact min_eq_right ((one_le_div hIpos).mpr hlt.le)

/-- Witness for C5 at a concrete one-deposit stream. -/
theorem C5_ratio_bounds_witness :
    (∀ e ∈ ([⟨⟨0, 0, 100, 0, 0⟩, .deposit⟩] : List PnlEvent), nonnegEvent e) ∧
    (∀ pre evt post,
        ([⟨⟨0, 0, 100, 0, 0⟩, .deposit⟩] : List PnlEvent) =
          pre ++ evt :: post →
      evt.event_type = .deposit →
      reinvestedRatio
          ((pre.foldl (stepUsd 0 0) initState).availableClaimedX / pow10 0)
          (evt.token_x_amount / pow10 0) ∈ Set.Icc (0 : ℚ) 1 ∧
      reinvestedRatio
          ((pre.foldl (stepUsd 0 0) initState).availableClaimedY / pow10 0)
          (evt.token_y_amount / pow10 0) ∈ Set.Icc (0 : ℚ) 1 ∧
      (evt.token_x_amount = 0 →
        reinvestedRatio
          ((pre.foldl (stepUsd 0 0) initState).availableClaimedX / pow10 0)
          (evt.token_x_amount / pow10 0) = 0) ∧
      (evt.token_y_amount = 0 →
        reinvestedRatio
          ((pre.foldl (stepUsd 0 0) initState).availableClaimedY / pow10 0)
          (evt.token_y_amount / pow10 0) = 0)) ∧
    withdrawalRatio
        (([⟨⟨0, 0, 100, 0, 0⟩, .deposit⟩] : List PnlEvent).foldl
          (stepUsd 0 0) initState) ∈ Set.Icc (0 : ℚ) 1 := by
  have hn : ∀ e ∈ ([⟨⟨0, 0, 100, 0, 0⟩, .deposit⟩] : List PnlEvent),
      nonnegEvent e := by
    intro e he
    simp only [List.mem_singleton] at he
    subst he
    exact ⟨⟨by norm_num, by norm_num⟩, by norm_num, by norm_num⟩
  have hmain := C5_ratio_bounds 0 0 [⟨⟨0, 0, 100, 0, 0⟩, .deposit⟩] hn
  exact ⟨hn, hmain.1, hmain.2.1⟩

/-- C7: the event list fed to the fold is the timestamp-sorted
combination of the tagged deposit, withdrawal and fee-claim lists: it is
a permutation of their concatenation, it is nondecreasing in
`onchain_timestamp`, and events sharing a timestamp keep their order in
the concatenation (stability, expressed per-timestamp by filtering). -/
theorem C7_sorted_stable (deposits withdrawals feeClaims : List RawPnlEvent) :
    (combineEvents deposits withdrawals feeClaims).Perm
        (tagEvents .deposit deposits ++ tagEvents .withdrawal withdrawals ++
          tagEvents .claimFees feeClaims) ∧
    List.Pairwise
        (fun a b : PnlEvent => a.onchain_timestamp ≤ b.onchain_timestamp)
        (combineEvents deposits withdrawals feeClaims) ∧
    ∀ t : ℚ,
      (combineEvents deposits withdrawals feeClaims).filter
          (fun e => decide (e.onchain_timestamp = t)) =
        (tagEvents .deposit deposits ++ tagEvents .withdrawal withdrawals ++
          tagEvents .claimFees feeClaims).filter
          (fun e => decide (e.onchain_timestamp = t)) := by
  refine ⟨List.perm_insertionSort tsLE _, List.sorted_insertionSort tsLE _, ?_⟩
  intro t
  set comb := tagEvents .deposit deposits ++
    tagEvents .withdrawal withdrawals ++ tagEvents .claimFees feeClaims with hcomb
  set p : PnlEvent → Bool := fun e => decide (e.onchain_timestamp = t) with hp
  have hpair : (comb.filter p).Pairwise tsLE := by
    apply List.pairwise_of_forall_mem_list
    intro a ha b hb
    have ha' : a.onchain_timestamp = t := by
      have := List.of_mem_filter ha
      simpa [hp] using this
    have hb' : b.onchain_timestamp = t := by
      have := List.of_mem_filter hb
      simpa [hp] using this
    show a.onchain_timestamp ≤ b.onchain_timestamp
    rw [ha', hb']
  have hsub : List.Sublist (comb.filter p)
      (combineEvents deposits withdrawals feeClaims) :=
    List.sublist_insertionSort hpair (List.filter_sublist comb)
  have hsub2 : List.Sublist (comb.filter p)
      ((combineEvents deposits withdrawals feeClaims).filter p) := by
    have := hsub.filter p
    rwa [List.filter_filter, show (fun a => p a && p a) = p by
      funext a; exact Bool.and_self (p a)] at this
  have hlen : ((combineEvents deposits withdrawals feeClaims).filter p).length
      = (comb.filter p).length :=
    ((List.perm_insertionSort tsLE comb).filter p).length_eq
  exact (hsub2.eq_of_length hlen.symm).symm

/-- `processPnlForPositions` as a `filterMap`: the loop's accumulator
analysis. -/
theorem processPnlForPositions_eq_filterMap (positions : List Position) :
    processPnlForPositions positions = positions.filterMap processPosition := by
  have key : ∀ (l : List Position) (acc : List PnlResultRow),
      l.foldl
          (fun results pos =>
            match processPosition pos with
            | some r => results ++ [r]
            | none => results)
          acc = acc ++ l.filterMap processPosition := by
    intro l
    induction l with
    | nil => intro acc; simp
    | cons pos ps ih =>
        intro acc
        cases hp : processPosition pos <;>
          simp [List.foldl_cons, hp, ih, List.filterMap_cons]
  simpa using key positions []

/-- C8: per-position isolation of `processPnlForPositions`: the batch
never aborts, the output has exactly one row per position whose USD and
Token-B computations both succeed, in input order, and no row for any
position whose computation fails. -/
theorem C8_per_position_isolation (positions : List Position) :
    processPnlForPositions positions = positions.filterMap processPosition ∧
    ∀ pos : Position,
      (processPosition pos).isSome = true ↔
        ((calculateMeteoraPositionPNLUsd pos.tokenXDecimals pos.tokenYDecimals
              (positionValueUsd pos) pos.deposits pos.withdrawals
              pos.feeClaims).isOk = true ∧
          (calculateMeteoraPositionPNLTokenB pos.tokenXDecimals
              pos.tokenYDecimals (positionValueUsd pos) pos.tokenYPriceUsd
              pos.deposits pos.withdrawals pos.feeClaims).isOk = true) := by
  refine ⟨processPnlForPositions_eq_filterMap positions, ?_⟩
  intro pos
  rcases hu : calculateMeteoraPositionPNLUsd pos.tokenXDecimals
      pos.tokenYDecimals (positionValueUsd pos) pos.deposits pos.withdrawals
      pos.feeClaims with u | u <;>
    rcases hb : calculateMeteoraPositionPNLTokenB pos.tokenXDecimals
        pos.tokenYDecimals (positionValueUsd pos) pos.tokenYPriceUsd
        pos.deposits pos.withdrawals pos.feeClaims with b | b <;>
    simp [processPosition, hu, hb, Except.isOk, Except.toBool]

/-- With `A < 0`, `B ≥ 0`, `C ≥ 0`, the root selected by `posRoot` is
the second one, and a nonnegative root `ℓ` with `2Aℓ + B ≤ 0` is exactly
that root. -/
theorem posRoot_eq {A B C l : ℝ} (hA : A < 0) (hC : 0 ≤ C)
    (hroot : A * l ^ 2 + B * l + C = 0)
    (hsign : 2 * A * l + B ≤ 0) : posRoot A B C = l := by
  simp only [posRoot]
  rw [if_neg hA.ne]
  have hd : B ^ 2 - 4 * A * C = (2 * A * l + B) ^ 2 := by
    linear_combination (-4 * A) * hroot
  have hsq : Real.sqrt (B ^ 2 - 4 * A * C) = -(2 * A * l + B) := by
    rw [hd, Real.sqrt_sq_eq_abs, abs_of_nonpos hsign]
  have hB2 : Real.sqrt (B ^ 2) ≤ Real.sqrt (B ^ 2 - 4 * A * C) := by
    apply Real.sqrt_le_sqrt
    nlinarith
  have hsd : B ≤ Real.sqrt (B ^ 2 - 4 * A * C) := by
    calc B ≤ |B| := le_abs_self B
    _ = Real.sqrt (B ^ 2) := (Real.sqrt_sq_eq_abs B).symm
    _ ≤ Real.sqrt (B ^ 2 - 4 * A * C) := hB2
  have h2A : (2 : ℝ) * A ≠ 0 := ne_of_lt (by linarith)
  have hr1 : (-B + Real.sqrt (B ^ 2 - 4 * A * C)) / (2 * A) ≤ 0 :=
    div_nonpos_iff.mpr (Or.inl ⟨by linarith, by linarith⟩)
  rw [if_neg (not_lt.mpr hr1), hsq,
    show -B - -(2 * A * l + B) = 2 * A * l by ring]
  exact mul_div_cancel_left₀ l h2A

/-- With `A < 0`, `B ≥ 0`, `C ≥ 0`, `posRoot` is nonnegative. -/
theorem posRoot_nonneg {A B C : ℝ} (hA : A < 0) (hB : 0 ≤ B) :
    0 ≤ posRoot A B C := by
  simp only [posRoot]
  rw [if_neg hA.ne]
  split_ifs with h1
  · exact h1.le
  · have hd0 : 0 ≤ Real.sqrt (B ^ 2 - 4 * A * C) := Real.sqrt_nonneg _
    exact div_nonneg_iff.mpr (Or.inr ⟨by linarith, by linarith⟩)

/-- C9: for valid inputs and a price strictly inside the range,
decomposing the full position value with `solve_v3_withdrawals` and
re-deriving the liquidity constant with `compute_L` from the resulting
quantities and the same range reproduces the original `L` exactly, so in
particular within relative tolerance `1e-6`. -/
theorem C9_round_trip (x0 y0 pMin pMax p Pa Pb : ℝ)
    (hx0 : 0 ≤ x0) (hy0 : 0 ≤ y0) (hpMin : 0 < pMin)
    (hp1 : pMin < p) (hp2 : p < pMax) (hPb : 0 < Pb) (hPa : Pa = p * Pb) :
    compute_L
        (solve_v3_withdrawals
          (fullPositionValue Pa Pb p (compute_L x0 y0 pMin pMax) pMin pMax)
          Pa Pb p (compute_L x0 y0 pMin pMax) pMin pMax).1
        (solve_v3_withdrawals
          (fullPositionValue Pa Pb p (compute_L x0 y0 pMin pMax) pMin pMax)
          Pa Pb p (compute_L x0 y0 pMin pMax) pMin pMax).2
        pMin pMax = compute_L x0 y0 pMin pMax ∧
    |compute_L
        (solve_v3_withdrawals
          (fullPositionValue Pa Pb p (compute_L x0 y0 pMin pMax) pMin pMax)
          Pa Pb p (compute_L x0 y0 pMin pMax) pMin pMax).1
        (solve_v3_withdrawals
          (fullPositionValue Pa Pb p (compute_L x0 y0 pMin pMax) pMin pMax)
          Pa Pb p (compute_L x0 y0 pMin pMax) pMin pMax).2
        pMin pMax - compute_L x0 y0 pMin pMax| ≤
      1 / 1000000 * compute_L x0 y0 pMin pMax := by
  set L := compute_L x0 y0 pMin pMax with hLdef
  have hp0 : 0 < p := hpMin.trans hp1
  have hpMax0 : 0 < pMax := hp0.trans hp2
  have hsa : 0 < Real.sqrt pMin := Real.sqrt_pos.mpr hpMin
  have hsp : 0 < Real.sqrt p := Real.sqrt_pos.mpr hp0
  have hsb : 0 < Real.sqrt pMax := Real.sqrt_pos.mpr hpMax0
  have hsp' : Real.sqrt p ≠ 0 := hsp.ne'
  have hsb' : Real.sqrt pMax ≠ 0 := hsb.ne'
  have h12 : Real.sqrt pMin < Real.sqrt p := Real.sqrt_lt_sqrt hpMin.le hp1
  have h23 : Real.sqrt p < Real.sqrt pMax := Real.sqrt_lt_sqrt hp0.le hp2
  have hA : Real.sqrt pMin * (1 / Real.sqrt pMax) - 1 < 0 := by
    have h : Real.sqrt pMin / Real.sqrt pMax < 1 :=
      (div_lt_one hsb).mpr (h12.trans h23)
    rw [mul_one_div]
    linarith
  have hLnn : 0 ≤ L := by
    rw [hLdef]
    exact posRoot_nonneg hA
      (add_nonneg (mul_nonneg hx0 hsa.le)
        (mul_nonneg hy0 (by positivity)))
  set x := L * (1 / Real.sqrt p - 1 / Real.sqrt pMax) with hxdef
  set y := L * (Real.sqrt p - Real.sqrt pMin) with hydef
  have hc1 : 0 < 1 / Real.sqrt p - 1 / Real.sqrt pMax := by
    have := one_div_lt_one_div_of_lt hsp h23
    linarith
  have hc2 : 0 < Real.sqrt p - Real.sqrt pMin := by linarith
  have hxnn : 0 ≤ x := mul_nonneg hLnn hc1.le
  have hynn : 0 ≤ y := mul_nonneg hLnn hc2.le
  have hPa0 : 0 < Pa := by rw [hPa]; exact mul_pos hp0 hPb
  have hq : solve_v3_withdrawals (fullPositionValue Pa Pb p L pMin pMax)
      Pa Pb p L pMin pMax = (x, y) := by
    simp only [solve_v3_withdrawals, fullPositionValue]
    rw [if_neg (not_le.mpr hp1), if_neg (not_le.mpr hp2)]
    rw [← hxdef, ← hydef]
    by_cases hV : x * Pa + y * Pb = 0
    · have hxPa : x * Pa = 0 := by
        have h1 : 0 ≤ x * Pa := mul_nonneg hxnn hPa0.le
        have h2 : 0 ≤ y * Pb := mul_nonneg hynn hPb.le
        linarith
      have hyPb : y * Pb = 0 := by
        have h1 : 0 ≤ x * Pa := mul_nonneg hxnn hPa0.le
        linarith
      have hx0' : x = 0 := by
        rcases mul_eq_zero.mp hxPa with h | h
        · exact h
        · exact absurd h hPa0.ne'
      have hy0' : y = 0 := by
        rcases mul_eq_zero.mp hyPb with h | h
        · exact h
        · exact absurd h hPb.ne'
      rw [hV, hx0', hy0']
      norm_num
    · rw [div_self hV]
      norm_num
  have hq1 : (solve_v3_withdrawals (fullPositionValue Pa Pb p L pMin pMax)
      Pa Pb p L pMin pMax).1 = x := by rw [hq]
  have hq2 : (solve_v3_withdrawals (fullPositionValue Pa Pb p L pMin pMax)
      Pa Pb p L pMin pMax).2 = y := by rw [hq]
  have hmain : compute_L x y pMin pMax = L := by
    have hroot : (Real.sqrt pMin * (1 / Real.sqrt pMax) - 1) * L ^ 2 +
        (x * Real.sqrt pMin + y * (1 / Real.sqrt pMax)) * L + x * y = 0 := by
      rw [hxdef, hydef]
      field_simp
      ring
    have hsign : 2 * (Real.sqrt pMin * (1 / Real.sqrt pMax) - 1) * L +
        (x * Real.sqrt pMin + y * (1 / Real.sqrt pMax)) ≤ 0 := by
      have hkey : 2 * (Real.sqrt pMin * (1 / Real.sqrt pMax) - 1) * L +
          (x * Real.sqrt pMin + y * (1 / Real.sqrt pMax)) =
          L * (Real.sqrt pMin / Real.sqrt p +
            Real.sqrt p / Real.sqrt pMax - 2) := by
        have hpp : Real.sqrt p ^ 2 = p := Real.sq_sqrt hp0.le
        rw [hxdef, hydef]
        field_simp
        linear_combination (Real.sqrt pMax ^ 3 * L * Real.sqrt p) * hpp
      rw [hkey]
      have ha1 : Real.sqrt pMin / Real.sqrt p < 1 := (div_lt_one hsp).mpr h12
      have ha2 : Real.sqrt p / Real.sqrt pMax < 1 := (div_lt_one hsb).mpr h23
      exact mul_nonpos_iff.mpr (Or.inl ⟨hLnn, by linarith⟩)
    exact posRoot_eq hA (mul_nonneg hxnn hynn) hroot hsign
  rw [hq1, hq2, hmain]
  refine ⟨rfl, ?_⟩
  rw [sub_self, abs_zero]
  exact mul_nonneg (by norm_num) hLnn

/-- Witness for C9 at `x0 = y0 = 1`, range `[1/4, 4]`, price 1,
token prices `Pa = Pb = 1`. -/
theorem C9_round_trip_witness :
    ((0:ℝ) ≤ 1 ∧ (0:ℝ) < 1/4 ∧ (1/4:ℝ) < 1 ∧ (1:ℝ) < 4 ∧ (1:ℝ) = 1 * 1) ∧
    compute_L
        (solve_v3_withdrawals
          (fullPositionValue 1 1 1 (compute_L 1 1 (1/4) 4) (1/4) 4)
          1 1 1 (compute_L 1 1 (1/4) 4) (1/4) 4).1
        (solve_v3_withdrawals
          (fullPositionValue 1 1 1 (compute_L 1 1 (1/4) 4) (1/4) 4)
          1 1 1 (compute_L 1 1 (1/4) 4) (1/4) 4).2
        (1/4) 4 = compute_L 1 1 (1/4) 4 ∧
    |compute_L
        (solve_v3_withdrawals
          (fullPositionValue 1 1 1 (compute_L 1 1 (1/4) 4) (1/4) 4)
          1 1 1 (compute_L 1 1 (1/4) 4) (1/4) 4).1
        (solve_v3_withdrawals
          (fullPositionValue 1 1 1 (compute_L 1 1 (1/4) 4) (1/4) 4)
          1 1 1 (compute_L 1 1 (1/4) 4) (1/4) 4).2
        (1/4) 4 - compute_L 1 1 (1/4) 4| ≤
      1 / 1000000 * compute_L 1 1 (1/4) 4 := by
  have h := C9_round_trip 1 1 (1/4) 4 1 1 1 zero_le_one zero_le_one
    (by norm_num) (by norm_num) (by norm_num) one_pos (by norm_num)
  exact ⟨⟨zero_le_one, by norm_num, by norm_num, by norm_num, by norm_num⟩,
    h.1, h.2⟩
